import Mathlib

/-!
Verification development for the g-code writer core
(`src/cura/files/writers/GCodeWriter.py`).

Python strings are modelled as `String`/`List Char`, Python dicts as
association lists (first binding wins on lookup, updates overwrite in
place), and the external collaborators (container registry, quality
manager, machine-definition resolver, `InstanceContainer.serialize`,
`json.dumps`) as an explicit environment of opaque functions.  Fallible
paths (the unguarded `int(...)` parse of the `position` metadata entry)
are modelled with `Option`, `none` standing for a raised exception.
-/

/-- Association-list lookup: the first binding for the key wins
(models Python dict lookup). -/
def alGet {α β : Type} [DecidableEq α] : List (α × β) → α → Option β
  | [], _ => none
  | (a, b) :: rest, k => if a = k then some b else alGet rest k

/-- Association-list update: overwrite the first binding for the key in
place, append a new binding if the key is absent (models Python dict
assignment, which preserves insertion order). -/
def alSet {α β : Type} [DecidableEq α] : List (α × β) → α → β → List (α × β)
  | [], k, v => [(k, v)]
  | (a, b) :: rest, k, v => if a = k then (k, v) :: rest else (a, b) :: alSet rest k v

/-- First-some choice on options, used to state lookup compositions. -/
def orOpt {β : Type} (a b : Option β) : Option β :=
  match a with
  | some v => some v
  | none => b

theorem alGet_alSet_self {α β : Type} [DecidableEq α] (l : List (α × β)) (k : α) (v : β) :
    alGet (alSet l k v) k = some v := by
  induction l with
  | nil => simp [alSet, alGet]
  | cons hd tl ih =>
    obtain ⟨a, b⟩ := hd
    by_cases h : a = k
    · simp [alSet, h, alGet]
    · simp [alSet, h, alGet, ih]

theorem alGet_alSet_ne {α β : Type} [DecidableEq α] (l : List (α × β)) (k k' : α) (v : β)
    (h : k ≠ k') : alGet (alSet l k v) k' = alGet l k' := by
  induction l with
  | nil => simp [alSet, alGet, h]
  | cons hd tl ih =>
    obtain ⟨a, b⟩ := hd
    by_cases ha : a = k
    · subst ha
      simp [alSet, alGet, h]
    · simp [alSet, ha, alGet, ih]

theorem alGet_isSome_iff_mem_keys {β : Type} (l : List (String × β)) (k : String) :
    (alGet l k).isSome ↔ k ∈ l.map Prod.fst := by
  induction l with
  | nil => simp [alGet]
  | cons hd tl ih =>
    obtain ⟨a, b⟩ := hd
    by_cases h : a = k
    · subst h
      simp [alGet]
    · simp [alGet, h, ih, Ne.symm h]

/--
A configuration profile (Uranium `InstanceContainer`, an external
collaborator consumed through its interface): identity, name, a metadata
mapping, an optional definition reference, and a setting-key/value
properties mapping (the `"value"` property of each setting key).
-/
structure Profile where
  id : String
  name : String
  metaData : List (String × String)
  definition : Option String
  properties : List (String × String)
  deriving DecidableEq

/-- `InstanceContainer(container_id)`: a fresh container with the given
identity, no metadata, no definition and no properties. -/
def mkInstanceContainer (cid : String) : Profile :=
  ⟨cid, cid, [], none, []⟩

/-- `container.getProperty(key, "value")`. -/
def getProperty (p : Profile) (k : String) : Option String :=
  alGet p.properties k

/-- `container.setProperty(key, "value", v)`. -/
def setProperty (p : Profile) (k v : String) : Profile :=
  { p with properties := alSet p.properties k v }

/-- `container.getMetaDataEntry(key)` with default `None`. -/
def getMetaDataEntry (md : List (String × String)) (k : String) : Option String :=
  alGet md k

/-- `container.addMetaDataEntry(key, value)` (call sites guard on the
entry being absent). -/
def addMetaDataEntry (p : Profile) (k v : String) : Profile :=
  { p with metaData := alSet p.metaData k v }

/-- `container.setMetaDataEntry(key, value)`. -/
def setMetaDataEntry (p : Profile) (k v : String) : Profile :=
  { p with metaData := alSet p.metaData k v }

/-- `container.getAllKeys()`: the set of setting keys, modelled as the
deduplicated key list. -/
def getAllKeys (p : Profile) : List String :=
  (p.properties.map Prod.fst).dedup

/-- The `for key in src.getAllKeys(): dst.setProperty(key, "value",
src.getProperty(key, "value"))` loop shared by both halves of
`_createFlattenedContainerInstance`. -/
def copyProps (src dst : Profile) : Profile :=
  (getAllKeys src).foldl
    (fun f k =>
      match alGet src.properties k with
      | some v => setProperty f k v
      | none => f) dst

theorem copy_fold_alGet (src : Profile) (L : List String) (hnd : L.Nodup)
    (dst : Profile) (k : String) :
    getProperty
      (L.foldl
        (fun f k' =>
          match alGet src.properties k' with
          | some v => setProperty f k' v
          | none => f) dst) k
    = if k ∈ L then orOpt (alGet src.properties k) (getProperty dst k)
      else getProperty dst k := by
  induction L generalizing dst with
  | nil => simp
  | cons a L' ih =>
    have hnd' : L'.Nodup := hnd.of_cons
    by_cases hak : k = a
    · subst hak
      have hkL' : k ∉ L' := (List.nodup_cons.mp hnd).1
      cases hsrc : alGet src.properties k with
      | some v =>
        simp only [List.foldl_cons, hsrc]
        rw [ih hnd']
        simp [hkL', getProperty, setProperty, alGet_alSet_self, hsrc, orOpt]
      | none =>
        simp only [List.foldl_cons, hsrc]
        rw [ih hnd']
        simp [hkL', hsrc, orOpt]
    · have hmem : k ∈ a :: L' ↔ k ∈ L' := by
        simp [List.mem_cons, hak]
      cases hsrc : alGet src.properties a with
      | some v =>
        simp only [List.foldl_cons, hsrc]
        rw [ih hnd']
        have heq : getProperty (setProperty dst a v) k = getProperty dst k := by
          simp [getProperty, setProperty, alGet_alSet_ne _ _ _ _ (Ne.symm hak)]
        rw [heq]
        simp only [hmem]
      | none =>
        simp only [List.foldl_cons, hsrc]
        rw [ih hnd']
        simp only [hmem]

theorem getAllKeys_nodup (p : Profile) : (getAllKeys p).Nodup :=
  List.nodup_dedup _

theorem copyProps_getProperty (src dst : Profile) (k : String) :
    getProperty (copyProps src dst) k
      = orOpt (alGet src.properties k) (getProperty dst k) := by
  unfold copyProps
  rw [copy_fold_alGet src (getAllKeys src) (getAllKeys_nodup src) dst k]
  by_cases hmem : k ∈ getAllKeys src
  · simp [hmem]
  · have hnone : alGet src.properties k = none := by
      by_contra hne
      have hs : (alGet src.properties k).isSome := by
        cases h : alGet src.properties k with
        | none => exact absurd h hne
        | some v => simp
      have := (alGet_isSome_iff_mem_keys src.properties k).mp hs
      exact hmem (by simpa [getAllKeys, List.mem_dedup] using this)
    simp [hmem, hnone, orOpt]

theorem copy_fold_metaData (src : Profile) (L : List String) (dst : Profile) :
    (L.foldl
      (fun f k' =>
        match alGet src.properties k' with
        | some v => setProperty f k' v
        | none => f) dst).metaData = dst.metaData := by
  induction L generalizing dst with
  | nil => rfl
  | cons a L' ih =>
    cases hsrc : alGet src.properties a with
    | some v => simp only [List.foldl_cons, hsrc]; rw [ih]; rfl
    | none => simp only [List.foldl_cons, hsrc]; rw [ih]

theorem copyProps_metaData (src dst : Profile) :
    (copyProps src dst).metaData = dst.metaData :=
  copy_fold_metaData src _ dst

/--
`GCodeWriter._createFlattenedContainerInstance(instance_container1,
instance_container2)`: create a fresh container named after the base
(`instance_container2`), deep-copy the base's metadata onto it, take the
overlay's definition reference when the overlay has one, then copy every
property of the base and afterwards every property of the overlay.
-/
def createFlattenedContainerInstance (instance_container1 instance_container2 : Profile) :
    Profile :=
  let flat_container := mkInstanceContainer instance_container2.name
  let flat_container := { flat_container with metaData := instance_container2.metaData }
  let flat_container :=
    match instance_container1.definition with
    | some d => { flat_container with definition := some d }
    | none => flat_container
  let flat_container := copyProps instance_container2 flat_container
  copyProps instance_container1 flat_container

theorem orOpt_none_right {β : Type} (a : Option β) : orOpt a none = a := by
  cases a <;> rfl

theorem flatten_getProperty (overlay base : Profile) (k : String) :
    getProperty (createFlattenedContainerInstance overlay base) k
      = orOpt (getProperty overlay k) (getProperty base k) := by
  unfold createFlattenedContainerInstance
  cases hdef : overlay.definition <;>
    simp only [hdef] <;>
    rw [copyProps_getProperty, copyProps_getProperty] <;>
    simp only [getProperty, mkInstanceContainer, alGet, orOpt_none_right]

/-- C3: every property key present in either source appears in the
flattened result, and whenever the overlay defines a key the result's
value for that key is the overlay's value, so on keys defined by both
sources the overlay wins. -/
theorem flatten_key_union_overlay_wins (overlay base : Profile) (k : String) :
    ((getProperty overlay k).isSome ∨ (getProperty base k).isSome →
      (getProperty (createFlattenedContainerInstance overlay base) k).isSome) ∧
    ((getProperty overlay k).isSome →
      getProperty (createFlattenedContainerInstance overlay base) k
        = getProperty overlay k) ∧
    ((getProperty overlay k).isNone → (getProperty base k).isSome →
      getProperty (createFlattenedContainerInstance overlay base) k
        = getProperty base k) := by
  rw [flatten_getProperty]
  cases ho : getProperty overlay k <;> cases hb : getProperty base k <;>
    simp [orOpt]

theorem flatten_key_union_overlay_wins_witness :
    getProperty
        (createFlattenedContainerInstance
          ⟨"u", "u", [], none, [("a", "1")]⟩
          ⟨"b", "b", [], none, [("a", "2"), ("c", "3")]⟩) "a"
      = some "1" := by
  exact ((flatten_key_union_overlay_wins
    ⟨"u", "u", [], none, [("a", "1")]⟩
    ⟨"b", "b", [], none, [("a", "2"), ("c", "3")]⟩ "a").2.1 (by decide)).trans
    (by decide)

/-- C8: the flattened result's metadata is (a deep copy of) the base's
metadata, and the whole flattened result is unaffected by the overlay's
metadata. -/
theorem flatten_metadata_from_base (overlay base : Profile) :
    (createFlattenedContainerInstance overlay base).metaData = base.metaData ∧
    ∀ md : List (String × String),
      createFlattenedContainerInstance { overlay with metaData := md } base
        = createFlattenedContainerInstance overlay base := by
  constructor
  · unfold createFlattenedContainerInstance
    rw [copyProps_metaData, copyProps_metaData]
    cases overlay.definition <;> rfl
  · intro md
    rfl

/-- `GCodeWriter.version = 3`. -/
def version : Nat := 3

/-- `GCodeWriter._setting_keyword = ";SETTING_"`. -/
def settingKeyword : String := ";SETTING_"

/-- `GCodeWriter.escape_characters`, as original character to
replacement (the source keys the dict by `re.escape` of the original). -/
def escape_characters : List (String × String) :=
  [("\\", "\\\\"), ("\n", "\\n"), ("\r", "\\r")]

/-- `prefix = self._setting_keyword + str(GCodeWriter.version) + " "`. -/
def pfxString : String := settingKeyword ++ toString version ++ " "

def pfxChars : List Char := pfxString.data

/-- The payload width of each encoded line: `80 - prefix_length`. -/
def payloadWidth : Nat := 80 - pfxString.length

/--
`pattern.sub(...)` with `pattern = re.compile("|".join(escape_characters
.keys()))`: a single left-to-right scan over the original text; at each
position the single-character alternatives backslash, newline and
carriage return are tried in dict order and the replacement emitted,
any other character is copied through.
-/
def subEscape : List Char → List Char
  | [] => []
  | c :: rest =>
    if c = '\\' then '\\' :: '\\' :: subEscape rest
    else if c = '\n' then '\\' :: 'n' :: subEscape rest
    else if c = '\r' then '\\' :: 'r' :: subEscape rest
    else c :: subEscape rest

/-- The escaping step of `_serialiseSettings` (line 153 of the source). -/
def escapeString (s : String) : String := String.mk (subEscape s.data)

/-- Modelled from the spec: the classification of one input character
used by the "single scan classifying each input character once"
description of the escaping step (spec section 4.4). -/
def escapeSpecChar (c : Char) : String :=
  if c = '\\' then "\\\\"
  else if c = '\n' then "\\n"
  else if c = '\r' then "\\r"
  else String.singleton c

/-- Modelled from the spec: escaping as one pass mapping each input
character once through the combined replacement classification and
concatenating the replacement texts in order. -/
def escapeSpecification (s : String) : String :=
  String.mk ((s.data.map (fun c => (escapeSpecChar c).data)).flatten)

/-- Reversal of the escape map, as a left-to-right scan: two backslashes
become one backslash, backslash-n a newline, backslash-r a carriage
return; everything else is copied through. -/
def unescapeChars : List Char → List Char
  | [] => []
  | [c] => [c]
  | c :: d :: rest =>
    if c = '\\' then
      if d = '\\' then '\\' :: unescapeChars rest
      else if d = 'n' then '\n' :: unescapeChars rest
      else if d = 'r' then '\r' :: unescapeChars rest
      else c :: unescapeChars (d :: rest)
    else c :: unescapeChars (d :: rest)

/-- One iteration of `for pos in range(0, len(escaped_string), 80 -
prefix_length)` per fuel step: slice `escaped_string[pos : pos + w]`. -/
def chunkLoop (w : Nat) : Nat → List Char → List (List Char)
  | 0, _ => []
  | n + 1, l => l.take w :: chunkLoop w n (l.drop w)

/-- The consecutive width-`w` slices of `l`: `range(0, len(l), w)` runs
for `ceil(len(l) / w)` iterations. -/
def chunksOf (w : Nat) (l : List Char) : List (List Char) :=
  chunkLoop w ((l.length + w - 1) / w) l

/-- The encoded lines: `prefix + escaped_string[pos : pos + 80 -
prefix_length] + "\n"`, in slice order (lines 159-160 of the source). -/
def encodeLines (escaped : List Char) : List (List Char) :=
  (chunksOf payloadWidth escaped).map (fun c => pfxChars ++ c ++ ['\n'])

def encodeBlockChars (escaped : List Char) : List Char :=
  (encodeLines escaped).flatten

/-- The comment encoder of `_serialiseSettings` (lines 149-161): escape
the serialized JSON text, then wrap it into prefixed lines. -/
def encode (jsonText : String) : String :=
  String.mk (encodeBlockChars (subEscape jsonText.data))

/-- Split a character stream into its newline-separated lines (the final
fragment is kept even without a trailing newline). -/
def splitOnNl : List Char → List (List Char)
  | [] => []
  | c :: rest =>
    if c = '\n' then [] :: splitOnNl rest
    else
      match splitOnNl rest with
      | [] => [[c]]
      | x :: xs => (c :: x) :: xs

/-- Modelled from the spec: the decoder lives outside this core's write
path (the g-code profile reader is not part of the given sources).  Per
spec section 4.4 it strips the per-line prefix from each line,
concatenates the payloads in file order, then reverses the escape map. -/
def decode (block : String) : String :=
  String.mk
    (unescapeChars
      (((splitOnNl block.data).map (fun l => l.drop pfxChars.length)).flatten))

theorem pfxChars_length : pfxChars.length = 11 := by decide

theorem payloadWidth_eq : payloadWidth = 69 := by decide

theorem nl_not_mem_pfxChars : '\n' ∉ pfxChars := by decide

theorem unescape_subEscape (l : List Char) : unescapeChars (subEscape l) = l := by
  induction l with
  | nil => rfl
  | cons c rest ih =>
    by_cases h1 : c = '\\'
    · subst h1; simp [subEscape, unescapeChars, ih]
    · by_cases h2 : c = '\n'
      · subst h2; simp [subEscape, unescapeChars, ih]
      · by_cases h3 : c = '\r'
        · subst h3; simp [subEscape, unescapeChars, ih]
        · rw [show subEscape (c :: rest) = c :: subEscape rest from by
            simp [subEscape, h1, h2, h3]]
          cases hrest : subEscape rest with
          | nil =>
            have hrest' : rest = [] := by
              rw [hrest] at ih
              simpa [unescapeChars] using ih.symm
            simp [hrest', unescapeChars]
          | cons d rest' =>
            rw [hrest] at ih
            simp [unescapeChars, h1, ih]

theorem nl_not_mem_subEscape (l : List Char) : '\n' ∉ subEscape l := by
  induction l with
  | nil => simp [subEscape]
  | cons c rest ih =>
    by_cases h1 : c = '\\'
    · subst h1; simp [subEscape, ih]
    · by_cases h2 : c = '\n'
      · subst h2; simp [subEscape, h1, ih]
      · by_cases h3 : c = '\r'
        · subst h3; simp [subEscape, h1, h2, ih]
        · simp [subEscape, h1, h2, h3, ih]
          exact fun hc => h2 hc.symm

theorem chunkLoop_flatten (w : Nat) :
    ∀ (n : Nat) (l : List Char), l.length ≤ n * w → (chunkLoop w n l).flatten = l := by
  intro n
  induction n with
  | zero =>
    intro l hl
    have : l = [] := List.eq_nil_of_length_eq_zero (Nat.le_zero.mp (by simpa using hl))
    simp [this, chunkLoop]
  | succ n ih =>
    intro l hl
    have hdrop : (l.drop w).length ≤ n * w := by
      rw [List.length_drop]
      have : l.length ≤ n * w + w := by
        calc l.length ≤ (n + 1) * w := hl
        _ = n * w + w := Nat.succ_mul n w
      omega
    simp [chunkLoop, ih (l.drop w) hdrop]

theorem chunksOf_flatten (w : Nat) (hw : 0 < w) (l : List Char) :
    (chunksOf w l).flatten = l := by
  apply chunkLoop_flatten
  have hdm := Nat.div_add_mod (l.length + w - 1) w
  have hml : (l.length + w - 1) % w < w := Nat.mod_lt _ hw
  have : (l.length + w - 1) / w * w = w * ((l.length + w - 1) / w) := Nat.mul_comm _ _
  omega

theorem chunkLoop_length (w n : Nat) (l : List Char) :
    (chunkLoop w n l).length = n := by
  induction n generalizing l with
  | zero => rfl
  | succ n ih => simp [chunkLoop, ih]

theorem chunkLoop_mem_length_le (w n : Nat) (l : List Char) :
    ∀ c ∈ chunkLoop w n l, c.length ≤ w := by
  induction n generalizing l with
  | zero => simp [chunkLoop]
  | succ n ih =>
    intro c hc
    rcases List.mem_cons.mp hc with h | h
    · subst h
      exact List.length_take_le w l
    · exact ih (l.drop w) c h

theorem chunkLoop_mem_subset (w n : Nat) (l : List Char) :
    ∀ c ∈ chunkLoop w n l, ∀ a ∈ c, a ∈ l := by
  induction n generalizing l with
  | zero => simp [chunkLoop]
  | succ n ih =>
    intro c hc a ha
    rcases List.mem_cons.mp hc with h | h
    · subst h
      exact List.take_subset w l ha
    · exact List.drop_subset w l (ih (l.drop w) c h a ha)

theorem chunkLoop_getElem? (w : Nat) :
    ∀ (n : Nat) (l : List Char) (i : Nat), i < n →
      (chunkLoop w n l)[i]? = some ((l.drop (i * w)).take w) := by
  intro n
  induction n with
  | zero => intro l i hi; omega
  | succ n ih =>
    intro l i hi
    cases i with
    | zero => simp [chunkLoop]
    | succ j =>
      have hj : j < n := by omega
      simp only [chunkLoop, List.getElem?_cons_succ]
      rw [ih (l.drop w) j hj, List.drop_drop]
      rw [show w + j * w = (j + 1) * w from by rw [Nat.succ_mul, Nat.add_comm]]

theorem splitOnNl_append (x t : List Char) (hx : '\n' ∉ x) :
    splitOnNl (x ++ '\n' :: t) = x :: splitOnNl t := by
  induction x with
  | nil => simp [splitOnNl]
  | cons a x' ih =>
    have ha : ¬(a = '\n') := fun h => hx (by simp [h])
    have hx' : '\n' ∉ x' := fun h => hx (List.mem_cons_of_mem _ h)
    rw [List.cons_append]
    simp only [splitOnNl, if_neg ha, ih hx']

theorem splitOnNl_flatten_lines (cs : List (List Char))
    (h : ∀ c ∈ cs, '\n' ∉ pfxChars ++ c) :
    splitOnNl ((cs.map (fun c => pfxChars ++ c ++ ['\n'])).flatten)
      = cs.map (fun c => pfxChars ++ c) := by
  induction cs with
  | nil => rfl
  | cons c cs' ih =>
    have hc : '\n' ∉ pfxChars ++ c := h c (List.mem_cons_self _ _)
    have hrest : ∀ c' ∈ cs', '\n' ∉ pfxChars ++ c' :=
      fun c' hc' => h c' (List.mem_cons_of_mem _ hc')
    simp only [List.map_cons, List.flatten_cons]
    rw [show pfxChars ++ c ++ ['\n'] ++ (cs'.map (fun c => pfxChars ++ c ++ ['\n'])).flatten
          = (pfxChars ++ c) ++ '\n' :: (cs'.map (fun c => pfxChars ++ c ++ ['\n'])).flatten
        from by simp [List.append_assoc]]
    rw [splitOnNl_append _ _ hc, ih hrest]

/-- C1: decoding the encoded block -- stripping the per-line prefix,
concatenating the payloads in order, and reversing the escape map --
recovers the original text exactly. -/
theorem encode_decode_roundtrip (jsonText : String) :
    decode (encode jsonText) = jsonText := by
  have hnl : ∀ c ∈ chunksOf payloadWidth (subEscape jsonText.data),
      '\n' ∉ pfxChars ++ c := by
    intro c hc hmem
    rcases List.mem_append.mp hmem with h | h
    · exact nl_not_mem_pfxChars h
    · exact nl_not_mem_subEscape jsonText.data
        (chunkLoop_mem_subset _ _ _ c hc _ h)
  show String.mk
      (unescapeChars
        (((splitOnNl (encodeBlockChars (subEscape jsonText.data))).map
            (fun l => l.drop pfxChars.length)).flatten)) = jsonText
  unfold encodeBlockChars encodeLines
  rw [splitOnNl_flatten_lines _ hnl]
  rw [List.map_map]
  have hfun : ((fun l : List Char => l.drop pfxChars.length) ∘ fun c => pfxChars ++ c)
      = fun c => c := funext fun c => List.drop_left pfxChars c
  rw [hfun, List.map_id', chunksOf_flatten payloadWidth (by decide),
    unescape_subEscape]

/-- C6: each encoded line is the prefix plus a payload terminated by a
single newline, prefix plus payload is at most 80 characters, the
payload never contains a newline, and every line except possibly the
last has payload length exactly 80 minus the prefix length. -/
theorem encode_line_width (T : String) :
    (∀ line ∈ encodeLines (subEscape T.data),
        ∃ payload, line = pfxChars ++ payload ++ ['\n'] ∧
          pfxChars.length + payload.length ≤ 80 ∧ '\n' ∉ payload) ∧
    (∀ i : Nat, i + 1 < (encodeLines (subEscape T.data)).length →
        ∃ payload, (encodeLines (subEscape T.data))[i]?
            = some (pfxChars ++ payload ++ ['\n']) ∧
          payload.length = 80 - pfxChars.length) := by
  constructor
  · intro line hline
    rcases List.mem_map.mp hline with ⟨c, hc, rfl⟩
    refine ⟨c, rfl, ?_, ?_⟩
    · have hle : c.length ≤ payloadWidth := chunkLoop_mem_length_le _ _ _ c hc
      rw [pfxChars_length]
      rw [payloadWidth_eq] at hle
      omega
    · intro hmem
      exact nl_not_mem_subEscape T.data (chunkLoop_mem_subset _ _ _ c hc _ hmem)
  · intro i hi
    have hlen : (encodeLines (subEscape T.data)).length
        = ((subEscape T.data).length + payloadWidth - 1) / payloadWidth := by
      unfold encodeLines chunksOf
      rw [List.length_map, chunkLoop_length]
    rw [hlen] at hi
    have hget : (chunksOf payloadWidth (subEscape T.data))[i]?
        = some (((subEscape T.data).drop (i * payloadWidth)).take payloadWidth) := by
      unfold chunksOf
      exact chunkLoop_getElem? _ _ _ _ (by omega)
    refine ⟨((subEscape T.data).drop (i * payloadWidth)).take payloadWidth, ?_, ?_⟩
    · unfold encodeLines
      rw [List.getElem?_map, hget]
      rfl
    · rw [payloadWidth_eq] at hi
      have h1 : (((subEscape T.data).length + 69 - 1) / 69) * 69
          ≤ (subEscape T.data).length + 69 - 1 := Nat.div_mul_le_self _ _
      have h2 : (i + 2) * 69 ≤ (((subEscape T.data).length + 69 - 1) / 69) * 69 :=
        Nat.mul_le_mul_right _ (by omega)
      have h3 : (i + 2) * 69 = i * 69 + 138 := by
        rw [Nat.add_mul]
      rw [List.length_take, List.length_drop, pfxChars_length, payloadWidth_eq]
      omega

def sampleLong : String :=
  "0123456789012345678901234567890123456789012345678901234567890123456789012345678901234567890123456789"

theorem encode_line_width_witness :
    ∃ payload, (encodeLines (subEscape sampleLong.data))[0]?
        = some (pfxChars ++ payload ++ ['\n']) ∧
      payload.length = 80 - pfxChars.length :=
  (encode_line_width sampleLong).2 0 (by decide)

/-- C9: the escaping step replaces each backslash by two backslashes,
each newline by backslash-n, each carriage return by backslash-r,
leaves every other character unchanged, and equals a single
left-to-right scan classifying each input character exactly once, so
escape-introduced backslashes are never re-escaped. -/
theorem escape_single_pass_equiv (s : String) :
    escapeString s = escapeSpecification s ∧
    escapeSpecChar '\\' = "\\\\" ∧
    escapeSpecChar '\n' = "\\n" ∧
    escapeSpecChar '\r' = "\\r" ∧
    (∀ c : Char, c ≠ '\\' → c ≠ '\n' → c ≠ '\r' →
      escapeSpecChar c = String.singleton c) ∧
    escapeString (String.mk ['\n']) = String.mk ['\\', 'n'] := by
  refine ⟨?_, by decide, by decide, by decide, ?_, by decide⟩
  · unfold escapeString escapeSpecification
    congr 1
    generalize s.data = l
    induction l with
    | nil => rfl
    | cons c rest ih =>
      by_cases h1 : c = '\\'
      · subst h1
        simp [subEscape, ih, show (escapeSpecChar '\\').data = ['\\', '\\'] from by decide]
      · by_cases h2 : c = '\n'
        · subst h2
          simp [subEscape, h1, ih,
            show (escapeSpecChar '\n').data = ['\\', 'n'] from by decide]
        · by_cases h3 : c = '\r'
          · subst h3
            simp [subEscape, h1, h2, ih,
              show (escapeSpecChar '\r').data = ['\\', 'r'] from by decide]
          · have hc : (escapeSpecChar c).data = [c] := by
              simp [escapeSpecChar, h1, h2, h3, String.singleton]
            simp [subEscape, h1, h2, h3, ih, hc]
  · intro c h1 h2 h3
    simp [escapeSpecChar, h1, h2, h3]

theorem escape_single_pass_equiv_witness :
    escapeSpecChar 'a' = String.singleton 'a' :=
  (escape_single_pass_equiv "x").2.2.2.2.1 'a' (by decide) (by decide) (by decide)

/-- A per-extruder stack, as consumed by `_serialiseSettings`: its own
metadata (carrying the `position` entry) and its quality, quality-changes
and user-changes profiles. -/
structure ExtruderStack where
  metaData : List (String × String)
  quality : Profile
  qualityChanges : Profile
  userChanges : Profile
  deriving DecidableEq

/-- The global container stack: quality, quality-changes and user-changes
profiles, the machine definition identity, and the extruder stacks in the
iteration order of `stack.extruders.values()`. -/
structure GlobalStack where
  quality : Profile
  qualityChanges : Profile
  userChanges : Profile
  definition : String
  extruders : List ExtruderStack
  deriving DecidableEq

/-- The JSON-serializable document: `{"global_quality": ...}` with the
`extruder_quality` key present once the first extruder serialization has
been appended via `setdefault`. -/
structure SettingsData where
  global_quality : String
  extruder_quality : Option (List String)
  deriving DecidableEq

/-- The external collaborators used by `_serialiseSettings`:
`container_registry.uniqueName`, `quality_manager
.createQualityChangesContainer(quality_type, name, stack, None)`,
`getMachineDefinitionIDForQualitySearch`, `InstanceContainer.serialize`
and `json.dumps`. -/
structure Env where
  uniqueName : String → String
  createQualityChangesContainer : Option String → String → GlobalStack → Profile
  getMachineDefinitionIDForQualitySearch : String → String
  serialize : Profile → String
  jsonDumps : SettingsData → String

/-- Decimal digit value of a character, by explicit cases. -/
def charDigit (c : Char) : Option Nat :=
  if c = '0' then some 0 else if c = '1' then some 1
  else if c = '2' then some 2 else if c = '3' then some 3
  else if c = '4' then some 4 else if c = '5' then some 5
  else if c = '6' then some 6 else if c = '7' then some 7
  else if c = '8' then some 8 else if c = '9' then some 9 else none

def parseDigitsAux : Nat → List Char → Option Nat
  | acc, [] => some acc
  | acc, c :: rest =>
    match charDigit c with
    | some d => parseDigitsAux (acc * 10 + d) rest
    | none => none

/-- Python's `int()` on an ordinary decimal string (optional sign, then
decimal digits); `none` models the raised `ValueError`. -/
def parsePyInt (s : String) : Option Int :=
  match s.data with
  | [] => none
  | '-' :: rest =>
    if rest = [] then none
    else (parseDigitsAux 0 rest).map (fun n => -(n : Int))
  | '+' :: rest =>
    if rest = [] then none
    else (parseDigitsAux 0 rest).map (fun n => (n : Int))
  | l => (parseDigitsAux 0 l).map (fun n => (n : Int))

/-- `int(extruder.getMetaDataEntry("position"))`: `none` when the entry
is missing or does not parse as an integer (Python raises there). -/
def extruderPos (e : ExtruderStack) : Option Int :=
  (getMetaDataEntry e.metaData "position").bind (fun s => parsePyInt s)

/-- The sort key of an extruder; the default is irrelevant because every
use is guarded by all positions parsing. -/
def posKeyD (e : ExtruderStack) : Int :=
  (extruderPos e).getD 0

/-- Stable insertion used to model Python's stable `sorted`. -/
def insertLE (x : ExtruderStack) : List ExtruderStack → List ExtruderStack
  | [] => [x]
  | y :: ys => if posKeyD x ≤ posKeyD y then x :: y :: ys else y :: insertLE x ys

/-- Stable ascending sort by integer position, modelling
`sorted(stack.extruders.values(), key = lambda k: int(k.getMetaDataEntry("position")))`. -/
def sortedExtruders : List ExtruderStack → List ExtruderStack
  | [] => []
  | y :: ys => insertLE y (sortedExtruders ys)

/-- `sorted(...)` with the raising key function: `none` when any
position fails to parse as an integer. -/
def sortExtruders (es : List ExtruderStack) : Option (List ExtruderStack) :=
  if es.all (fun e => (extruderPos e).isSome) then some (sortedExtruders es) else none

/-- Lines 90-110 of the source: resolve the global quality-changes
profile (synthesizing one through the external providers when it is the
`empty_quality_changes` sentinel), flatten the user-changes overlay over
it, apply the `type` and `quality_type` default fixups and overwrite the
`definition` metadata entry. -/
def flattenGlobal (env : Env) (stack : GlobalStack) : Profile :=
  let quality_type := getMetaDataEntry stack.quality.metaData "quality_type"
  let container_with_profile :=
    if stack.qualityChanges.id = "empty_quality_changes" then
      env.createQualityChangesContainer quality_type
        (env.uniqueName stack.quality.name) stack
    else stack.qualityChanges
  let flat_global_container :=
    createFlattenedContainerInstance stack.userChanges container_with_profile
  let flat_global_container :=
    if (getMetaDataEntry flat_global_container.metaData "type").isNone then
      addMetaDataEntry flat_global_container "type" "quality_changes"
    else flat_global_container
  let flat_global_container :=
    if (getMetaDataEntry flat_global_container.metaData "quality_type").isNone then
      addMetaDataEntry flat_global_container "quality_type"
        ((getMetaDataEntry stack.quality.metaData "quality_type").getD "normal")
    else flat_global_container
  setMetaDataEntry flat_global_container "definition"
    (env.getMachineDefinitionIDForQualitySearch stack.definition)

/-- Lines 115-135 of the source: the per-extruder analogue of
`flattenGlobal`, with the additional `position` default fixup (the
source passes the raw metadata entry; it is present on every path where
the sort succeeded). -/
def flattenExtruder (env : Env) (stack : GlobalStack) (extruder : ExtruderStack) : Profile :=
  let quality_type := getMetaDataEntry stack.quality.metaData "quality_type"
  let extruder_quality :=
    if extruder.qualityChanges.id = "empty_quality_changes" then
      env.createQualityChangesContainer quality_type
        (env.uniqueName stack.quality.name) stack
    else extruder.qualityChanges
  let flat_extruder_quality :=
    createFlattenedContainerInstance extruder.userChanges extruder_quality
  let flat_extruder_quality :=
    if (getMetaDataEntry flat_extruder_quality.metaData "type").isNone then
      addMetaDataEntry flat_extruder_quality "type" "quality_changes"
    else flat_extruder_quality
  let flat_extruder_quality :=
    if (getMetaDataEntry flat_extruder_quality.metaData "position").isNone then
      addMetaDataEntry flat_extruder_quality "position"
        ((getMetaDataEntry extruder.metaData "position").getD "")
    else flat_extruder_quality
  let flat_extruder_quality :=
    if (getMetaDataEntry flat_extruder_quality.metaData "quality_type").isNone then
      addMetaDataEntry flat_extruder_quality "quality_type"
        ((getMetaDataEntry extruder.quality.metaData "quality_type").getD "normal")
    else flat_extruder_quality
  setMetaDataEntry flat_extruder_quality "definition"
    (env.getMachineDefinitionIDForQualitySearch stack.definition)

/-- The body of the extruder loop (lines 115-140): serialize the
flattened extruder profile, append it to `extruder_quality` via
`setdefault`, and extend `all_setting_keys`. -/
def serialiseStep (env : Env) (stack : GlobalStack)
    (acc : SettingsData × List String) (extruder : ExtruderStack) :
    SettingsData × List String :=
  let flat_extruder_quality := flattenExtruder env stack extruder
  let extruder_serialized := env.serialize flat_extruder_quality
  (⟨acc.1.global_quality,
     some ((acc.1.extruder_quality.getD []) ++ [extruder_serialized])⟩,
   acc.2 ++ getAllKeys flat_extruder_quality)

/-- Lines 110-140: build `data` (starting from the serialized global
profile) and `all_setting_keys` by folding the extruder loop over the
sorted extruders. -/
def serialiseData (env : Env) (stack : GlobalStack) (es : List ExtruderStack) :
    SettingsData × List String :=
  let flat_global_container := flattenGlobal env stack
  es.foldl (serialiseStep env stack)
    (⟨env.serialize flat_global_container, none⟩, getAllKeys flat_global_container)

/-- Lines 142-161: return the empty string (with the info diagnostic)
when no setting keys were collected, otherwise JSON-serialize `data`
and encode it into the comment block. -/
def serialiseSettingsSorted (env : Env) (stack : GlobalStack)
    (es : List ExtruderStack) : String × List (String × String) :=
  if (serialiseData env stack es).2 = [] then
    ("", [("i", "No custom settings found, not writing settings to g-code.")])
  else
    (encode (env.jsonDumps (serialiseData env stack es).1), [])

/-- `GCodeWriter._serialiseSettings(stack)`: the serialized settings
block together with the diagnostics it emits; `none` models the
exception raised by `int(...)` on an unparseable `position` entry. -/
def serialiseSettings (env : Env) (stack : GlobalStack) :
    Option (String × List (String × String)) :=
  (sortExtruders stack.extruders).map (serialiseSettingsSorted env stack)

/-- `MeshWriter.OutputMode`. -/
inductive OutputMode where
  | TextMode
  | BinaryMode
  deriving DecidableEq

/-- The scene as seen by `write`: `gcode_dict` is absent (`none`) when
the scene has no such attribute, otherwise a dict from build-plate index
to chunk list. -/
structure Scene where
  gcode_dict : Option (List (Nat × List String))
  deriving DecidableEq

/-- The observable outcome of one `write` call: everything written to
the stream in order, the diagnostic log lines, and the returned bool. -/
structure WriteResult where
  out : String
  log : List (String × String)
  ok : Bool
  deriving DecidableEq

/-- `gcode_dict.get(active_build_plate)` behind the `hasattr` guard:
the chunk list for build plate 0, when available. -/
def availableChunks (scene : Scene) : Option (List String) :=
  match scene.gcode_dict with
  | none => none
  | some d => alGet d 0

/-- `GCodeWriter.write(stream, nodes, mode)` (lines 39-64): reject
non-text modes with an error diagnostic, return `False` when the scene
has no `gcode_dict` or no chunk list for the active build plate,
otherwise write all chunks, and append the serialized settings block
when no chunk starts with the setting keyword.  `none` models an
exception escaping from `_serialiseSettings`. -/
def write (env : Env) (stack : GlobalStack) (scene : Scene) (mode : OutputMode) :
    Option WriteResult :=
  if mode ≠ OutputMode.TextMode then
    some ⟨"", [("e", "GCodeWriter does not support non-text mode.")], false⟩
  else
    match scene.gcode_dict with
    | none => some ⟨"", [], false⟩
    | some gcode_dict =>
      match alGet gcode_dict 0 with
      | none => some ⟨"", [], false⟩
      | some gcode_list =>
        let has_settings :=
          gcode_list.any (fun gcode =>
            decide (gcode.take settingKeyword.length = settingKeyword))
        if has_settings then some ⟨String.join gcode_list, [], true⟩
        else
          match serialiseSettings env stack with
          | none => none
          | some (settings, lg) =>
            some ⟨String.join gcode_list ++ settings, lg, true⟩

theorem mem_insertLE (x a : ExtruderStack) (l : List ExtruderStack) :
    a ∈ insertLE x l ↔ a = x ∨ a ∈ l := by
  induction l with
  | nil => simp [insertLE]
  | cons y ys ih =>
    by_cases h : posKeyD x ≤ posKeyD y
    · simp [insertLE, h]
    · simp [insertLE, h, ih]
      tauto

theorem insertLE_perm (x : ExtruderStack) (l : List ExtruderStack) :
    (insertLE x l).Perm (x :: l) := by
  induction l with
  | nil => exact List.Perm.refl _
  | cons y ys ih =>
    by_cases h : posKeyD x ≤ posKeyD y
    · simp [insertLE, h]
    · simp only [insertLE, if_neg h]
      exact (ih.cons y).trans (List.Perm.swap x y ys)

theorem sortedExtruders_perm (es : List ExtruderStack) :
    (sortedExtruders es).Perm es := by
  induction es with
  | nil => exact List.Perm.refl _
  | cons y ys ih =>
    exact (insertLE_perm y (sortedExtruders ys)).trans (ih.cons y)

theorem insertLE_sorted (x : ExtruderStack) (l : List ExtruderStack)
    (h : List.Pairwise (fun a b => posKeyD a ≤ posKeyD b) l) :
    List.Pairwise (fun a b => posKeyD a ≤ posKeyD b) (insertLE x l) := by
  induction l with
  | nil => simp [insertLE]
  | cons y ys ih =>
    rcases List.pairwise_cons.mp h with ⟨hy, hys⟩
    by_cases hxy : posKeyD x ≤ posKeyD y
    · simp only [insertLE, if_pos hxy]
      refine List.pairwise_cons.mpr ⟨?_, h⟩
      intro b hb
      rcases List.mem_cons.mp hb with rfl | hb
      · exact hxy
      · exact le_trans hxy (hy b hb)
    · simp only [insertLE, if_neg hxy]
      refine List.pairwise_cons.mpr ⟨?_, ih hys⟩
      intro b hb
      rcases (mem_insertLE x b ys).mp hb with rfl | hb
      · exact le_of_not_le hxy
      · exact hy b hb

theorem sortedExtruders_sorted (es : List ExtruderStack) :
    List.Pairwise (fun a b => posKeyD a ≤ posKeyD b) (sortedExtruders es) := by
  induction es with
  | nil => simp [sortedExtruders]
  | cons y ys ih => exact insertLE_sorted y _ ih

theorem sortedExtruders_strict (es : List ExtruderStack)
    (hnd : (es.map posKeyD).Nodup) :
    List.Pairwise (fun a b => posKeyD a < posKeyD b) (sortedExtruders es) := by
  have hperm : ((sortedExtruders es).map posKeyD).Perm (es.map posKeyD) :=
    (sortedExtruders_perm es).map posKeyD
  have hnd' : ((sortedExtruders es).map posKeyD).Nodup := hperm.nodup_iff.mpr hnd
  have hne : List.Pairwise (fun a b => posKeyD a ≠ posKeyD b) (sortedExtruders es) :=
    List.pairwise_map.mp hnd'
  have hle := sortedExtruders_sorted es
  exact (hle.and hne).imp (fun h => lt_of_le_of_ne h.1 h.2)

theorem step_fold_extruder_quality (env : Env) (stack : GlobalStack)
    (es : List ExtruderStack) (d : SettingsData) (ks : List String) :
    ((es.foldl (serialiseStep env stack) (d, ks)).1).extruder_quality
      = if es = [] then d.extruder_quality
        else some ((d.extruder_quality.getD [])
          ++ es.map (fun e => env.serialize (flattenExtruder env stack e))) := by
  induction es generalizing d ks with
  | nil => simp
  | cons e es' ih =>
    simp only [List.foldl_cons]
    rw [show serialiseStep env stack (d, ks) e
        = (⟨d.global_quality,
             some ((d.extruder_quality.getD [])
               ++ [env.serialize (flattenExtruder env stack e)])⟩,
           ks ++ getAllKeys (flattenExtruder env stack e)) from rfl]
    rw [ih]
    by_cases hes : es' = []
    · simp [hes]
    · simp [hes, List.append_assoc]

/-- C4 (amended): when every extruder's `position` metadata parses as an
integer and the positions are pairwise distinct, `_serialiseSettings`
sorts the extruders into a permutation of the input whose positions are
strictly ascending, and appends the per-extruder serializations to
`extruder_quality` exactly in that order, whatever the iteration order
of the extruder collection. -/
theorem extruder_order_strict_ascending (env : Env) (stack : GlobalStack)
    (hpos : ∀ e ∈ stack.extruders, (extruderPos e).isSome)
    (hnd : (stack.extruders.map posKeyD).Nodup) :
    sortExtruders stack.extruders = some (sortedExtruders stack.extruders) ∧
    (sortedExtruders stack.extruders).Perm stack.extruders ∧
    List.Pairwise (fun a b => posKeyD a < posKeyD b) (sortedExtruders stack.extruders) ∧
    (serialiseData env stack (sortedExtruders stack.extruders)).1.extruder_quality
      = if sortedExtruders stack.extruders = [] then none
        else some ((sortedExtruders stack.extruders).map
          (fun e => env.serialize (flattenExtruder env stack e))) := by
  refine ⟨?_, sortedExtruders_perm _, sortedExtruders_strict _ hnd, ?_⟩
  · have hall : stack.extruders.all (fun e => (extruderPos e).isSome) = true := by
      rw [List.all_eq_true]
      exact hpos
    simp [sortExtruders, hall]
  · unfold serialiseData
    rw [step_fold_extruder_quality]
    by_cases hes : sortedExtruders stack.extruders = []
    · simp [hes]
    · simp [hes]

/-- A concrete environment for witnesses: identity-like providers, a
constant serializer and a constant JSON dump. -/
def envX : Env :=
  ⟨fun n => n, fun _ _ _ => mkInstanceContainer "new", fun d => d,
   fun _ => "", fun _ => "J"⟩

/-- A concrete global stack with one custom setting key and no extruders. -/
def stackX : GlobalStack :=
  ⟨mkInstanceContainer "q", ⟨"qc", "qc", [], none, [("a", "1")]⟩,
   mkInstanceContainer "u", "d", []⟩

def extA : ExtruderStack :=
  ⟨[("position", "1")], mkInstanceContainer "qA",
   ⟨"qcA", "qcA", [], none, [("x", "1")]⟩, mkInstanceContainer "uA"⟩

def extB : ExtruderStack :=
  ⟨[("position", "0")], mkInstanceContainer "qB",
   ⟨"qcB", "qcB", [], none, [("y", "2")]⟩, mkInstanceContainer "uB"⟩

def stackTwo : GlobalStack :=
  ⟨mkInstanceContainer "q", ⟨"qc", "qc", [], none, [("a", "1")]⟩,
   mkInstanceContainer "u", "d", [extA, extB]⟩

theorem extruder_order_strict_ascending_witness :
    sortExtruders stackTwo.extruders = some (sortedExtruders stackTwo.extruders) ∧
    (sortedExtruders stackTwo.extruders).Perm stackTwo.extruders ∧
    List.Pairwise (fun a b => posKeyD a < posKeyD b) (sortedExtruders stackTwo.extruders) ∧
    (serialiseData envX stackTwo (sortedExtruders stackTwo.extruders)).1.extruder_quality
      = if sortedExtruders stackTwo.extruders = [] then none
        else some ((sortedExtruders stackTwo.extruders).map
          (fun e => envX.serialize (flattenExtruder envX stackTwo e))) :=
  extruder_order_strict_ascending envX stackTwo (by decide) (by decide)

def extC : ExtruderStack :=
  ⟨[("position", "0")], mkInstanceContainer "qC",
   mkInstanceContainer "qcC", mkInstanceContainer "uC"⟩

def extD : ExtruderStack :=
  ⟨[("position", "0")], mkInstanceContainer "qD",
   mkInstanceContainer "qcD", mkInstanceContainer "uD"⟩

def stackDup : GlobalStack :=
  ⟨mkInstanceContainer "q", ⟨"qc", "qc", [], none, [("a", "1")]⟩,
   mkInstanceContainer "u", "d", [extC, extD]⟩

/-- C4 counterexample: on a stack whose two extruders both carry the
integer-parseable position "0", two serializations are appended to
`extruder_quality`, but the visit order is not strictly ascending in
position (the two positions are equal). -/
theorem extruder_order_duplicate_positions_counterexample :
    (∀ e ∈ stackDup.extruders, (extruderPos e).isSome) ∧
    (serialiseData envX stackDup (sortedExtruders stackDup.extruders)).1.extruder_quality
      = some ["", ""] ∧
    ¬ List.Pairwise (fun a b => posKeyD a < posKeyD b)
        (sortedExtruders stackDup.extruders) := by
  refine ⟨by decide, by decide, by decide⟩

/-- C2 (amended): if any chunk BEGINS with the reserved keyword
`;SETTING_` (its first nine characters, ignoring the version digits),
the chunks are written verbatim and no encoded block is appended. -/
theorem write_chunk_keyword_skips_block (env : Env) (stack : GlobalStack)
    (gd : List (Nat × List String)) (chunks : List String)
    (h0 : alGet gd 0 = some chunks)
    (hhas : chunks.any (fun gcode =>
        decide (gcode.take settingKeyword.length = settingKeyword)) = true) :
    write env stack ⟨some gd⟩ OutputMode.TextMode
      = some ⟨String.join chunks, [], true⟩ := by
  simp [write, h0, hhas]

theorem write_chunk_keyword_skips_block_witness :
    write envX stackX ⟨some [(0, [";SETTING_3 old\n", "G1 X10\n"])]⟩ OutputMode.TextMode
      = some ⟨String.join [";SETTING_3 old\n", "G1 X10\n"], [], true⟩ :=
  write_chunk_keyword_skips_block envX stackX [(0, [";SETTING_3 old\n", "G1 X10\n"])]
    [";SETTING_3 old\n", "G1 X10\n"] (by decide) (by decide)

/-- Whether some line anywhere inside a chunk starts with the setting
keyword (what C2 as stated asserts the writer scans for). -/
def containsSettingLine (g : String) : Bool :=
  (splitOnNl g.data).any (fun l =>
    decide (l.take settingKeyword.data.length = settingKeyword.data))

/-- C2 counterexample: a chunk whose SECOND line starts with
`;SETTING_` contains a matching line, yet `write` still appends the
encoded block after the chunks (the source only inspects the chunk's
own first nine characters). -/
theorem write_scan_anywhere_counterexample :
    containsSettingLine "G1 X10\n;SETTING_3 abc\n" = true ∧
    (write envX stackX ⟨some [(0, ["G1 X10\n;SETTING_3 abc\n"])]⟩
        OutputMode.TextMode).map (fun r => r.out)
      = some ("G1 X10\n;SETTING_3 abc\n;SETTING_3 J\n") ∧
    some ("G1 X10\n;SETTING_3 abc\n;SETTING_3 J\n")
      ≠ some (String.join ["G1 X10\n;SETTING_3 abc\n"]) := by
  refine ⟨by decide, by decide, by decide⟩

theorem string_append_empty (s : String) : s ++ "" = s := by
  cases s with
  | mk l => show String.mk (l ++ []) = String.mk l; rw [List.append_nil]

/-- C5: when the union of setting keys collected across the global and
all per-extruder flattened profiles is empty (and every position
parses, so serialization completes), `write` sends exactly the
concatenation of the chunks to the destination and still returns
success. -/
theorem write_empty_settings_success (env : Env) (stack : GlobalStack)
    (gd : List (Nat × List String)) (chunks : List String)
    (h0 : alGet gd 0 = some chunks)
    (hpos : stack.extruders.all (fun e => (extruderPos e).isSome) = true)
    (hkeys : (serialiseData env stack (sortedExtruders stack.extruders)).2 = []) :
    ∃ r : WriteResult,
      write env stack ⟨some gd⟩ OutputMode.TextMode = some r ∧
      r.out = String.join chunks ∧ r.ok = true := by
  have hser : serialiseSettings env stack
      = some ("", [("i", "No custom settings found, not writing settings to g-code.")]) := by
    unfold serialiseSettings
    rw [show sortExtruders stack.extruders = some (sortedExtruders stack.extruders) from by
      simp [sortExtruders, hpos]]
    simp [serialiseSettingsSorted, hkeys]
  cases hhs : chunks.any (fun gcode =>
      decide (gcode.take settingKeyword.length = settingKeyword)) with
  | true =>
    exact ⟨⟨String.join chunks, [], true⟩, by simp [write, h0, hhs], rfl, rfl⟩
  | false =>
    refine ⟨⟨String.join chunks ++ "",
      [("i", "No custom settings found, not writing settings to g-code.")], true⟩,
      by simp [write, h0, hhs, hser], ?_, rfl⟩
    exact string_append_empty _

/-- A concrete stack with no custom setting keys anywhere. -/
def stackE : GlobalStack :=
  ⟨mkInstanceContainer "q", mkInstanceContainer "qc2",
   mkInstanceContainer "u", "d", []⟩

theorem write_empty_settings_success_witness :
    ∃ r : WriteResult,
      write envX stackE ⟨some [(0, ["G1 X10\n"])]⟩ OutputMode.TextMode = some r ∧
      r.out = String.join ["G1 X10\n"] ∧ r.ok = true :=
  write_empty_settings_success envX stackE [(0, ["G1 X10\n"])] ["G1 X10\n"]
    (by decide) (by decide) (by decide)

/-- C7 (amended): `write` returns `False` exactly when the requested
mode is not text mode or when no chunks are available; the
unsupported-mode failure is reported via the diagnostic sink while the
no-content failure returns `False` silently; in both failure cases
nothing is written to the destination and no exception escapes. -/
theorem write_failure_conditions (env : Env) (stack : GlobalStack)
    (scene : Scene) (mode : OutputMode) :
    (mode ≠ OutputMode.TextMode →
      write env stack scene mode
        = some ⟨"", [("e", "GCodeWriter does not support non-text mode.")], false⟩) ∧
    (mode = OutputMode.TextMode → availableChunks scene = none →
      write env stack scene mode = some ⟨"", [], false⟩) ∧
    (∀ r : WriteResult, write env stack scene mode = some r →
      (r.ok = false ↔ (mode ≠ OutputMode.TextMode ∨ availableChunks scene = none))) := by
  have hfail1 : mode ≠ OutputMode.TextMode →
      write env stack scene mode
        = some ⟨"", [("e", "GCodeWriter does not support non-text mode.")], false⟩ := by
    intro h
    simp [write, h]
  have hfail2 : mode = OutputMode.TextMode → availableChunks scene = none →
      write env stack scene mode = some ⟨"", [], false⟩ := by
    intro hm hc
    subst hm
    cases hd : scene.gcode_dict with
    | none => simp [write, hd]
    | some d =>
      have hg : alGet d 0 = none := by simpa [availableChunks, hd] using hc
      simp [write, hd, hg]
  refine ⟨hfail1, hfail2, ?_⟩
  intro r hr
  by_cases hm : mode = OutputMode.TextMode
  · subst hm
    cases hd : scene.gcode_dict with
    | none =>
      have havail : availableChunks scene = none := by simp [availableChunks, hd]
      rw [hfail2 rfl havail] at hr
      obtain rfl := Option.some.inj hr
      simp [havail]
    | some d =>
      cases hg : alGet d 0 with
      | none =>
        have havail : availableChunks scene = none := by simp [availableChunks, hd, hg]
        rw [hfail2 rfl havail] at hr
        obtain rfl := Option.some.inj hr
        simp [havail]
      | some chunks =>
        have havail : availableChunks scene = some chunks := by
          simp [availableChunks, hd, hg]
        cases hhs : chunks.any (fun gcode =>
            decide (gcode.take settingKeyword.length = settingKeyword)) with
        | true =>
          have hw : write env stack scene OutputMode.TextMode
              = some ⟨String.join chunks, [], true⟩ := by
            simp [write, hd, hg, hhs]
          rw [hw] at hr
          obtain rfl := Option.some.inj hr
          simp [havail]
        | false =>
          cases hss : serialiseSettings env stack with
          | none =>
            have hw : write env stack scene OutputMode.TextMode = none := by
              simp [write, hd, hg, hhs, hss]
            rw [hw] at hr
            exact absurd hr (by simp)
          | some pr =>
            obtain ⟨settings, lg⟩ := pr
            have hw : write env stack scene OutputMode.TextMode
                = some ⟨String.join chunks ++ settings, lg, true⟩ := by
              simp [write, hd, hg, hhs, hss]
            rw [hw] at hr
            obtain rfl := Option.some.inj hr
            simp [havail]
  · rw [hfail1 hm] at hr
    obtain rfl := Option.some.inj hr
    simp [hm]

theorem write_failure_conditions_witness :
    write envX stackX ⟨some [(0, ["G1 X10\n"])]⟩ OutputMode.BinaryMode
      = some ⟨"", [("e", "GCodeWriter does not support non-text mode.")], false⟩ :=
  (write_failure_conditions envX stackX ⟨some [(0, ["G1 X10\n"])]⟩
    OutputMode.BinaryMode).1 (by decide)

/-- C7 counterexample: in text mode with no chunks available for build
plate 0, `write` fails (returns `False`) but emits no diagnostic at
all, so the no-content failure is not reported via the diagnostic
sink. -/
theorem write_no_content_silent_counterexample :
    availableChunks ⟨some []⟩ = none ∧
    write envX stackX ⟨some []⟩ OutputMode.TextMode = some ⟨"", [], false⟩ := by
  refine ⟨by decide, by decide⟩

/-- An explicit heap of containers, for stating that the writer never
mutates its input profiles: object identity (a reference) to contents. -/
abbrev Store : Type := List (Nat × Profile)

/-- Mutation of the container an identity refers to, wherever it is
referenced. -/
def updateStore : Store → Nat → (Profile → Profile) → Store
  | [], _, _ => []
  | (a, p) :: rest, r, f =>
    if a = r then (a, f p) :: updateStore rest r f
    else (a, p) :: updateStore rest r f

/-- Allocation of a fresh container under a new reference. -/
def allocStore (st : Store) (r : Nat) (p : Profile) : Store := (r, p) :: st

/-- The property-copy loop of `_createFlattenedContainerInstance` as
store mutations of the freshly created container. -/
def storeSetProps (src : Profile) (rNew : Nat) (st : Store) : Store :=
  (getAllKeys src).foldl
    (fun acc k =>
      match alGet src.properties k with
      | some v => updateStore acc rNew (fun f => setProperty f k v)
      | none => acc) st

/-- `_createFlattenedContainerInstance` in store form: read overlay
(`r1`) and base (`r2`), allocate the flat container at `rNew`, then
apply exactly the source's mutations -- all of them to `rNew`. -/
def flattenSt (st : Store) (r1 r2 rNew : Nat) : Store :=
  match alGet st r1, alGet st r2 with
  | some c1, some c2 =>
    let st := allocStore st rNew (mkInstanceContainer c2.name)
    let st := updateStore st rNew (fun f => { f with metaData := c2.metaData })
    let st :=
      match c1.definition with
      | some d => updateStore st rNew (fun f => { f with definition := some d })
      | none => st
    let st := storeSetProps c2 rNew st
    storeSetProps c1 rNew st
  | _, _ => st

/-- `if flat.getMetaDataEntry(key, None) is None: flat.addMetaDataEntry
(key, value)` as a store operation on the flat container. -/
def condAddMetaData (st : Store) (rFlat : Nat) (key value : String) : Store :=
  match alGet st rFlat with
  | some f =>
    if (getMetaDataEntry f.metaData key).isNone then
      updateStore st rFlat (fun p => addMetaDataEntry p key value)
    else st
  | none => st

/-- The global half of `_serialiseSettings` in store form: flatten, then
the `type` and `quality_type` default fixups and the `definition`
overwrite, all on the fresh flat container. -/
def serialiseGlobalSt (st : Store) (r1 r2 rNew : Nat)
    (qualityTypeDefault machineDefinitionId : String) : Store :=
  let st := flattenSt st r1 r2 rNew
  let st := condAddMetaData st rNew "type" "quality_changes"
  let st := condAddMetaData st rNew "quality_type" qualityTypeDefault
  updateStore st rNew (fun p => setMetaDataEntry p "definition" machineDefinitionId)

/-- The per-extruder loop body in store form: flatten, then the `type`,
`position` and `quality_type` default fixups and the `definition`
overwrite, all on the fresh flat container. -/
def serialiseExtruderSt (st : Store) (r1 r2 rNew : Nat)
    (positionValue qualityTypeDefault machineDefinitionId : String) : Store :=
  let st := flattenSt st r1 r2 rNew
  let st := condAddMetaData st rNew "type" "quality_changes"
  let st := condAddMetaData st rNew "position" positionValue
  let st := condAddMetaData st rNew "quality_type" qualityTypeDefault
  updateStore st rNew (fun p => setMetaDataEntry p "definition" machineDefinitionId)

theorem alGet_updateStore_ne (st : Store) (rNew r : Nat) (f : Profile → Profile)
    (h : r ≠ rNew) : alGet (updateStore st rNew f) r = alGet st r := by
  induction st with
  | nil => rfl
  | cons hd tl ih =>
    obtain ⟨a, p⟩ := hd
    by_cases ha : a = rNew
    · subst ha
      have har : ¬(a = r) := fun hc => h (hc ▸ rfl)
      simp [updateStore, alGet, har, ih]
    · by_cases har : a = r
      · simp [updateStore, alGet, ha, har, h]
      · simp [updateStore, alGet, ha, har, ih]

theorem alGet_allocStore_ne (st : Store) (rNew r : Nat) (p : Profile)
    (h : r ≠ rNew) : alGet (allocStore st rNew p) r = alGet st r := by
  simp [allocStore, alGet, Ne.symm h]

theorem fold_preserves_alGet {α : Type} (L : List α) (step : Store → α → Store)
    (st : Store) (r : Nat)
    (hstep : ∀ acc x, alGet (step acc x) r = alGet acc r) :
    alGet (L.foldl step st) r = alGet st r := by
  induction L generalizing st with
  | nil => rfl
  | cons a L' ih => rw [List.foldl_cons, ih, hstep]

theorem alGet_storeSetProps_ne (src : Profile) (rNew r : Nat) (st : Store)
    (h : r ≠ rNew) : alGet (storeSetProps src rNew st) r = alGet st r := by
  apply fold_preserves_alGet
  intro acc k
  cases alGet src.properties k with
  | some v => exact alGet_updateStore_ne _ _ _ _ h
  | none => rfl

theorem flattenSt_frame (st : Store) (r1 r2 rNew r : Nat) (h : r ≠ rNew) :
    alGet (flattenSt st r1 r2 rNew) r = alGet st r := by
  unfold flattenSt
  cases h1 : alGet st r1 with
  | none => rfl
  | some c1 =>
    cases h2 : alGet st r2 with
    | none => rfl
    | some c2 =>
      cases hdef : c1.definition with
      | none =>
        simp only [hdef]
        rw [alGet_storeSetProps_ne _ _ _ _ h, alGet_storeSetProps_ne _ _ _ _ h,
          alGet_updateStore_ne _ _ _ _ h, alGet_allocStore_ne _ _ _ _ h]
      | some d =>
        simp only [hdef]
        rw [alGet_storeSetProps_ne _ _ _ _ h, alGet_storeSetProps_ne _ _ _ _ h,
          alGet_updateStore_ne _ _ _ _ h, alGet_updateStore_ne _ _ _ _ h,
          alGet_allocStore_ne _ _ _ _ h]

theorem condAddMetaData_frame (st : Store) (rFlat r : Nat) (key value : String)
    (h : r ≠ rFlat) : alGet (condAddMetaData st rFlat key value) r = alGet st r := by
  unfold condAddMetaData
  cases alGet st rFlat with
  | none => rfl
  | some f =>
    by_cases hc : (getMetaDataEntry f.metaData key).isNone
    · simp [hc, alGet_updateStore_ne _ _ _ _ h]
    · simp [hc]

/-- C10: flattening and the subsequent metadata fixups mutate only the
freshly created flattened container: any other reference -- in
particular the overlay, the base, and every profile of the stack --
refers to an unchanged container after the global serialization step
and after each per-extruder serialization step. -/
theorem flatten_serialise_frame (st : Store) (r1 r2 rNew r : Nat)
    (qt posv mdid : String) (h : r ≠ rNew) :
    alGet (serialiseGlobalSt st r1 r2 rNew qt mdid) r = alGet st r ∧
    alGet (serialiseExtruderSt st r1 r2 rNew posv qt mdid) r = alGet st r := by
  constructor
  · unfold serialiseGlobalSt
    rw [alGet_updateStore_ne _ _ _ _ h, condAddMetaData_frame _ _ _ _ _ h,
      condAddMetaData_frame _ _ _ _ _ h, flattenSt_frame _ _ _ _ _ h]
  · unfold serialiseExtruderSt
    rw [alGet_updateStore_ne _ _ _ _ h, condAddMetaData_frame _ _ _ _ _ h,
      condAddMetaData_frame _ _ _ _ _ h, condAddMetaData_frame _ _ _ _ _ h,
      flattenSt_frame _ _ _ _ _ h]

theorem flatten_serialise_frame_witness :
    alGet (serialiseGlobalSt
        [(1, ⟨"u", "u", [("m", "1")], none, [("a", "1")]⟩),
         (2, ⟨"b", "b", [("m", "2")], none, [("a", "2"), ("c", "3")]⟩)]
        1 2 3 "normal" "mdid") 1
      = alGet [(1, (⟨"u", "u", [("m", "1")], none, [("a", "1")]⟩ : Profile)),
               (2, ⟨"b", "b", [("m", "2")], none, [("a", "2"), ("c", "3")]⟩)] 1 ∧
    alGet (serialiseExtruderSt
        [(1, ⟨"u", "u", [("m", "1")], none, [("a", "1")]⟩),
         (2, ⟨"b", "b", [("m", "2")], none, [("a", "2"), ("c", "3")]⟩)]
        1 2 3 "0" "normal" "mdid") 1
      = alGet [(1, (⟨"u", "u", [("m", "1")], none, [("a", "1")]⟩ : Profile)),
               (2, ⟨"b", "b", [("m", "2")], none, [("a", "2"), ("c", "3")]⟩)] 1 :=
  flatten_serialise_frame
    [(1, ⟨"u", "u", [("m", "1")], none, [("a", "1")]⟩),
     (2, ⟨"b", "b", [("m", "2")], none, [("a", "2"), ("c", "3")]⟩)]
    1 2 3 1 "normal" "0" "mdid" (by decide)
